import Mathlib

/-!
Verification of the Anvil region-file reader (src/anvil/region.py).

The Python code is shallowly embedded: the byte buffer of a region file is a
List Nat (each element one byte), Python slices data[a:b] become
take (b - a) (drop a), a plain index data[i] that can raise IndexError is
modelled with Option, and the call into the external zlib decompressor is
made an observable outcome (the decompress constructor carries exactly the
bytes the Python code would pass to zlib.decompress).
-/

/-- Python slice data[a:b] for nonnegative bounds: silently truncates at the
end of the list and yields the empty list when b is at most a. -/
def sliceBytes (data : List Nat) (a b : Nat) : List Nat :=
  (data.drop a).take (b - a)

/-- Python int.from_bytes with big-endian byte order. -/
def fromBytesBE (bs : List Nat) : Nat :=
  bs.foldl (fun acc byte => acc * 256 + byte) 0

/-- The four big-endian bytes of a number below 2 to the 32. -/
def bytesOfBE4 (n : Nat) : List Nat :=
  [n / 16777216 % 256, n / 65536 % 256, n / 256 % 256, n % 256]

/-- Embeds Region.header_offset: 4 * (chunk_x % 32 + chunk_z % 32 * 32).
Python % on ints is mathematical (floored) modulo, which for the positive
modulus 32 agrees with Int.emod, the % of Lean Int. -/
def header_offset (chunk_x chunk_z : Int) : Int :=
  4 * (chunk_x % 32 + chunk_z % 32 * 32)

/-- Embeds Region.chunk_location. Reads data[b_off : b_off + 3] big-endian
as the sector offset and data[b_off + 3] as the sector count. The plain
index data[b_off + 3] raises IndexError when out of range, hence Option. -/
def chunk_location (data : List Nat) (chunk_x chunk_z : Int) : Option (Nat × Nat) :=
  let b_off := (header_offset chunk_x chunk_z).toNat
  let off := fromBytesBE (sliceBytes data b_off (b_off + 3))
  match data.get? (b_off + 3) with
  | none => none
  | some sectors => some (off, sectors)

/-- Outcome of Region.chunk_data. The Python method either returns None
(absent), raises GZipChunkData on compression tag 1, raises IndexError when
the compression-byte index is out of range, or calls zlib.decompress on the
sliced payload bytes; the decompress constructor records that call together
with the exact bytes passed in. -/
inductive ChunkDataResult where
  | absent
  | gzipError
  | indexError
  | decompress (payload : List Nat)
  deriving DecidableEq, Repr

/-- Embeds Region.chunk_data: looks up the location, returns absent on
(0, 0), otherwise reads the 4-byte big-endian length L at sector_offset *
4096, the compression byte at offset + 4, raises GZipChunkData on tag 1,
and for any other tag slices data[off + 5 : off + 5 + L - 1] and hands it
to zlib.decompress. -/
def chunk_data (data : List Nat) (chunk_x chunk_z : Int) : ChunkDataResult :=
  match chunk_location data chunk_x chunk_z with
  | none => .indexError
  | some loc =>
    if loc = (0, 0) then .absent
    else
      let off := loc.1 * 4096
      let length := fromBytesBE (sliceBytes data off (off + 4))
      match data.get? (off + 4) with
      | none => .indexError
      | some compression =>
        if compression = 1 then .gzipError
        else .decompress (sliceBytes data (off + 5) (off + 5 + length - 1))

/-- Result of single-chunk retrieval once the external decoder D has been
applied to the bytes that chunk_data hands to zlib.decompress. -/
inductive DecodedResult where
  | absent
  | gzipError
  | indexError
  | payload (tree : List Nat)
  deriving DecidableEq, Repr

/-- chunk_data composed with an external decoder D standing for
zlib.decompress followed by the NBT parse. -/
def chunk_data_decoded (D : List Nat → List Nat) (data : List Nat)
    (chunk_x chunk_z : Int) : DecodedResult :=
  match chunk_data data chunk_x chunk_z with
  | .absent => .absent
  | .gzipError => .gzipError
  | .indexError => .indexError
  | .decompress c => .payload (D c)

lemma header_offset_toNat_le (x z : Int) : (header_offset x z).toNat ≤ 4092 := by
  unfold header_offset
  omega

lemma getD_drop_eq (l : List Nat) (a i : Nat) :
    (l.drop a).getD i 0 = l.getD (a + i) 0 := by
  simp [List.getD_eq_getD_get?, List.get?_eq_getElem?, List.getElem?_drop]

lemma take_three_eq (l : List Nat) (h : 3 ≤ l.length) :
    l.take 3 = [l.getD 0 0, l.getD 1 0, l.getD 2 0] := by
  match l with
  | a :: b :: c :: t => simp [List.getD]
  | [] => simp at h
  | [a] => simp at h
  | [a, b] => simp at h

lemma get?_eq_some_getD (l : List Nat) (i : Nat) (h : i < l.length) :
    l.get? i = some (l.getD i 0) := by
  simp [List.get?_eq_getElem?, List.getElem?_eq_getElem h, List.getD_eq_getD_get?,
    List.getElem?_eq_getElem h]

lemma fromBytesBE_three (a b c : Nat) :
    fromBytesBE [a, b, c] = 65536 * a + 256 * b + c := by
  simp [fromBytesBE]
  ring

lemma fromBytesBE_bytesOfBE4 (n : Nat) (h : n < 4294967296) :
    fromBytesBE (bytesOfBE4 n) = n := by
  simp [fromBytesBE, bytesOfBE4]
  omega

/-- The header read performed by chunk_location, spelled out byte by byte. -/
lemma chunk_location_spec (data : List Nat) (x z : Int)
    (h : 8192 ≤ data.length) :
    chunk_location data x z =
      some (65536 * data.getD (header_offset x z).toNat 0 +
              256 * data.getD ((header_offset x z).toNat + 1) 0 +
                    data.getD ((header_offset x z).toNat + 2) 0,
            data.getD ((header_offset x z).toNat + 3) 0) := by
  have hb := header_offset_toNat_le x z
  have h3 : (header_offset x z).toNat + 3 < data.length := by omega
  have hlen3 : 3 ≤ (data.drop (header_offset x z).toNat).length := by
    simp [List.length_drop]
    omega
  have h33 : (header_offset x z).toNat + 3 - (header_offset x z).toNat = 3 := by omega
  have hslice : sliceBytes data (header_offset x z).toNat ((header_offset x z).toNat + 3) =
      [data.getD (header_offset x z).toNat 0,
       data.getD ((header_offset x z).toNat + 1) 0,
       data.getD ((header_offset x z).toNat + 2) 0] := by
    unfold sliceBytes
    rw [h33, take_three_eq _ hlen3, getD_drop_eq, getD_drop_eq, getD_drop_eq]
    simp
  unfold chunk_location
  dsimp only
  rw [get?_eq_some_getD data _ h3, hslice, fromBytesBE_three]

/-- Unfolding of chunk_data when the location is present and nonzero. -/
lemma chunk_data_nonzero (data : List Nat) (x z : Int) (s c t : Nat)
    (hloc : chunk_location data x z = some (s, c))
    (hne : (s, c) ≠ ((0 : Nat), (0 : Nat)))
    (htag : data.get? (s * 4096 + 4) = some t) :
    chunk_data data x z =
      if t = 1 then .gzipError
      else .decompress (sliceBytes data (s * 4096 + 5)
        (s * 4096 + 5 + fromBytesBE (sliceBytes data (s * 4096) (s * 4096 + 4)) - 1)) := by
  have hne2 : ¬(s = 0 ∧ c = 0) := by
    intro hsc
    exact hne (by simp [hsc.1, hsc.2])
  rw [List.get?_eq_getElem?] at htag
  unfold chunk_data
  rw [hloc]
  simp [hne2, htag]

/-- C3: header_offset is invariant under shifting either coordinate by 32,
lands in [0, 4092], and is a multiple of 4; normalization is true
mathematical modulo, so this holds for negative inputs as well. -/
theorem header_offset_periodic_range (x z : Int) :
    header_offset (x + 32) z = header_offset x z ∧
    header_offset x (z + 32) = header_offset x z ∧
    0 ≤ header_offset x z ∧ header_offset x z ≤ 4092 ∧
    4 ∣ header_offset x z := by
  unfold header_offset
  refine ⟨by omega, by omega, by omega, by omega, ⟨x % 32 + z % 32 * 32, rfl⟩⟩

/-- C4: header_offset is injective on the 1024 representative pairs with
both coordinates in [0, 31]. -/
theorem header_offset_injective (x1 z1 x2 z2 : Int)
    (hx1 : 0 ≤ x1) (hx1u : x1 ≤ 31) (hz1 : 0 ≤ z1) (hz1u : z1 ≤ 31)
    (hx2 : 0 ≤ x2) (hx2u : x2 ≤ 31) (hz2 : 0 ≤ z2) (hz2u : z2 ≤ 31)
    (heq : header_offset x1 z1 = header_offset x2 z2) :
    x1 = x2 ∧ z1 = z2 := by
  unfold header_offset at heq
  omega

/-- Witness for C4 at the concrete pair (3, 5) against (3, 5). -/
theorem header_offset_injective_witness :
    (3 : Int) = 3 ∧ (5 : Int) = 5 :=
  header_offset_injective 3 5 3 5 (by decide) (by decide) (by decide)
    (by decide) (by decide) (by decide) (by decide) (by decide) rfl

/-- C5: on a buffer holding both header sectors, chunk_location returns the
pair of the 3-byte big-endian integer at the header offset and the single
byte at header offset + 3, and an all-zero entry yields the ordinary value
(0, 0) rather than an error. -/
theorem chunk_location_header_read (data : List Nat) (x z : Int)
    (h : 8192 ≤ data.length) :
    chunk_location data x z =
      some (65536 * data.getD (header_offset x z).toNat 0 +
              256 * data.getD ((header_offset x z).toNat + 1) 0 +
                    data.getD ((header_offset x z).toNat + 2) 0,
            data.getD ((header_offset x z).toNat + 3) 0) ∧
    (data.getD (header_offset x z).toNat 0 = 0 →
     data.getD ((header_offset x z).toNat + 1) 0 = 0 →
     data.getD ((header_offset x z).toNat + 2) 0 = 0 →
     data.getD ((header_offset x z).toNat + 3) 0 = 0 →
     chunk_location data x z = some (0, 0)) := by
  refine ⟨chunk_location_spec data x z h, ?_⟩
  intro h0 h1 h2 h3
  rw [chunk_location_spec data x z h, h0, h1, h2, h3]

/-- Witness for C5 on an 8192-byte all-zero buffer at coordinates (0, 0). -/
theorem chunk_location_header_read_witness :
    8192 ≤ (List.replicate 8192 (0 : Nat)).length ∧
    chunk_location (List.replicate 8192 (0 : Nat)) 0 0 = some (0, 0) := by
  have h : 8192 ≤ (List.replicate 8192 (0 : Nat)).length := by rw [List.length_replicate]
  have h0 : ∀ i, (List.replicate 8192 (0 : Nat)).getD i 0 = 0 := by
    intro i
    rw [List.getD_eq_getD_get?, List.get?_eq_getElem?, List.getElem?_replicate]
    split <;> rfl
  exact ⟨h, (chunk_location_header_read _ 0 0 h).2 (h0 _) (h0 _) (h0 _) (h0 _)⟩

/-- C6: when the 4-byte header entry of a chunk is all zero, chunk_location
reports (0, 0) and chunk_data returns absent without any error; the result
depends on nothing but the header entry, as the buffer is otherwise
arbitrary. -/
theorem chunk_data_absent_on_zero_header (data : List Nat) (x z : Int)
    (h : 8192 ≤ data.length)
    (h0 : data.getD (header_offset x z).toNat 0 = 0)
    (h1 : data.getD ((header_offset x z).toNat + 1) 0 = 0)
    (h2 : data.getD ((header_offset x z).toNat + 2) 0 = 0)
    (h3 : data.getD ((header_offset x z).toNat + 3) 0 = 0) :
    chunk_location data x z = some (0, 0) ∧
    chunk_data data x z = ChunkDataResult.absent := by
  have hloc : chunk_location data x z = some (0, 0) := by
    rw [chunk_location_spec data x z h, h0, h1, h2, h3]
  refine ⟨hloc, ?_⟩
  unfold chunk_data
  rw [hloc]
  simp

/-- Witness for C6 on an 8192-byte all-zero buffer at coordinates (5, 9). -/
theorem chunk_data_absent_on_zero_header_witness :
    chunk_location (List.replicate 8192 (0 : Nat)) 5 9 = some (0, 0) ∧
    chunk_data (List.replicate 8192 (0 : Nat)) 5 9 = ChunkDataResult.absent := by
  have h : 8192 ≤ (List.replicate 8192 (0 : Nat)).length := by rw [List.length_replicate]
  have h0 : ∀ i, (List.replicate 8192 (0 : Nat)).getD i 0 = 0 := by
    intro i
    rw [List.getD_eq_getD_get?, List.get?_eq_getElem?, List.getElem?_replicate]
    split <;> rfl
  exact chunk_data_absent_on_zero_header _ 5 9 h (h0 _) (h0 _) (h0 _) (h0 _)

/-- C2: a present, nonzero location whose compression byte is 1 (gzip)
makes chunk_data raise GZipChunkData, and no payload slice is handed to
the decompressor. -/
theorem chunk_data_gzip_error (data : List Nat) (x z : Int) (s c : Nat)
    (hloc : chunk_location data x z = some (s, c))
    (hne : (s, c) ≠ ((0 : Nat), (0 : Nat)))
    (htag : data.get? (s * 4096 + 4) = some 1) :
    chunk_data data x z = ChunkDataResult.gzipError := by
  rw [chunk_data_nonzero data x z s c 1 hloc hne htag]
  simp

/-- Witness for C2 on a tiny buffer whose record carries compression tag 1. -/
theorem chunk_data_gzip_error_witness :
    chunk_data [0, 0, 0, 2, 1] 0 0 = ChunkDataResult.gzipError :=
  chunk_data_gzip_error [0, 0, 0, 2, 1] 0 0 0 2 (by decide) (by decide) (by decide)

/-- Counterexample to C1: with compression tag 99 the code does not fail
with an unsupported-compression error; it slices the payload and hands it
to zlib.decompress, so decompression is attempted. -/
theorem chunk_data_tag99_counterexample :
    chunk_data [0, 0, 0, 3, 99, 10, 20] 0 0 = ChunkDataResult.decompress [10, 20] ∧
    chunk_data [0, 0, 0, 3, 99, 10, 20] 0 0 ≠ ChunkDataResult.gzipError ∧
    chunk_data [0, 0, 0, 3, 99, 10, 20] 0 0 ≠ ChunkDataResult.absent := by
  decide

/-- Amended C1: for any compression tag other than 1 (99 included) the code
raises no error at all; it attempts zlib decompression of the sliced
payload bytes. Only tag 1 gets the distinct GZipChunkData error. -/
theorem chunk_data_unknown_tag_decompresses (data : List Nat) (x z : Int)
    (s c t : Nat)
    (hloc : chunk_location data x z = some (s, c))
    (hne : (s, c) ≠ ((0 : Nat), (0 : Nat)))
    (htag : data.get? (s * 4096 + 4) = some t)
    (ht : t ≠ 1) :
    chunk_data data x z =
      ChunkDataResult.decompress (sliceBytes data (s * 4096 + 5)
        (s * 4096 + 5 + fromBytesBE (sliceBytes data (s * 4096) (s * 4096 + 4)) - 1)) := by
  rw [chunk_data_nonzero data x z s c t hloc hne htag]
  simp [ht]

/-- Witness for the amended C1 with tag 99. -/
theorem chunk_data_unknown_tag_decompresses_witness :
    chunk_data [0, 0, 0, 3, 99, 10, 20] 0 0 =
      ChunkDataResult.decompress (sliceBytes [0, 0, 0, 3, 99, 10, 20] 5
        (5 + fromBytesBE (sliceBytes [0, 0, 0, 3, 99, 10, 20] 0 4) - 1)) :=
  chunk_data_unknown_tag_decompresses [0, 0, 0, 3, 99, 10, 20] 0 0 0 3 99
    (by decide) (by decide) (by decide) (by decide)

/-- C7: a buffer whose header entry points at a record of big-endian length
L = C.length + 1, tag 2, and compressed payload C makes chunk_data hand
exactly C to the decompressor, and composing with a decoder D that inverts
the compression (D C = P) yields exactly the plaintext P. -/
theorem chunk_data_zlib_roundtrip (data : List Nat) (x z : Int)
    (P C : List Nat) (D : List Nat → List Nat) (s c : Nat)
    (hD : D C = P)
    (hloc : chunk_location data x z = some (s, c))
    (hne : (s, c) ≠ ((0 : Nat), (0 : Nat)))
    (hsmall : C.length + 1 < 4294967296)
    (hlen : sliceBytes data (s * 4096) (s * 4096 + 4) = bytesOfBE4 (C.length + 1))
    (htag : data.get? (s * 4096 + 4) = some 2)
    (hpay : sliceBytes data (s * 4096 + 5) (s * 4096 + 5 + C.length) = C) :
    chunk_data data x z = ChunkDataResult.decompress C ∧
    chunk_data_decoded D data x z = DecodedResult.payload P := by
  have hL : fromBytesBE (sliceBytes data (s * 4096) (s * 4096 + 4)) = C.length + 1 := by
    rw [hlen, fromBytesBE_bytesOfBE4 _ hsmall]
  have harith : s * 4096 + 5 + (C.length + 1) - 1 = s * 4096 + 5 + C.length := by omega
  have hmain : chunk_data data x z = ChunkDataResult.decompress C := by
    rw [chunk_data_nonzero data x z s c 2 hloc hne htag,
      if_neg (by decide : ¬(2 = 1)), hL, harith, hpay]
  refine ⟨hmain, ?_⟩
  unfold chunk_data_decoded
  rw [hmain]
  simp [hD]

/-- Witness for C7: payload bytes [10, 20] standing for the compression of
plaintext [7] under a decoder that maps [10, 20] back to [7]. -/
theorem chunk_data_zlib_roundtrip_witness :
    chunk_data [0, 0, 0, 3, 2, 10, 20] 0 0 = ChunkDataResult.decompress [10, 20] ∧
    chunk_data_decoded (fun c => if c = [10, 20] then [7] else [])
      [0, 0, 0, 3, 2, 10, 20] 0 0 = DecodedResult.payload [7] :=
  chunk_data_zlib_roundtrip [0, 0, 0, 3, 2, 10, 20] 0 0 [7] [10, 20]
    (fun c => if c = [10, 20] then [7] else []) 0 3
    (by decide) (by decide) (by decide) (by decide) (by decide) (by decide) (by decide)

/-- Counterexample to C8: a record whose declared length 9 reads past the
7-byte buffer produces no truncation or out-of-bounds error; the slice is
silently truncated to 2 bytes and handed to the decompressor. -/
theorem chunk_data_overrun_counterexample :
    chunk_data [0, 0, 0, 9, 2, 10, 20] 0 0 = ChunkDataResult.decompress [10, 20] ∧
    fromBytesBE (sliceBytes [0, 0, 0, 9, 2, 10, 20] 0 4) = 9 ∧
    ([10, 20] : List Nat).length < 9 - 1 := by
  decide

/-- Amended C8: the code has no bounds check. When the declared length L
overruns the buffer, Python slicing silently truncates: chunk_data still
returns a decompress outcome whose payload is shorter than the declared
L - 1 bytes, and no dedicated error is produced before slicing. -/
theorem chunk_data_overrun_truncates (data : List Nat) (x z : Int)
    (s c t : Nat)
    (hloc : chunk_location data x z = some (s, c))
    (hne : (s, c) ≠ ((0 : Nat), (0 : Nat)))
    (htag : data.get? (s * 4096 + 4) = some t)
    (ht : t ≠ 1)
    (hL2 : 2 ≤ fromBytesBE (sliceBytes data (s * 4096) (s * 4096 + 4)))
    (hover : data.length <
      s * 4096 + 4 + fromBytesBE (sliceBytes data (s * 4096) (s * 4096 + 4))) :
    chunk_data data x z =
      ChunkDataResult.decompress (sliceBytes data (s * 4096 + 5)
        (s * 4096 + 5 + fromBytesBE (sliceBytes data (s * 4096) (s * 4096 + 4)) - 1)) ∧
    (sliceBytes data (s * 4096 + 5)
        (s * 4096 + 5 + fromBytesBE (sliceBytes data (s * 4096) (s * 4096 + 4)) - 1)).length
      < fromBytesBE (sliceBytes data (s * 4096) (s * 4096 + 4)) - 1 := by
  constructor
  · rw [chunk_data_nonzero data x z s c t hloc hne htag]
    simp [ht]
  · generalize hLdef : fromBytesBE (sliceBytes data (s * 4096) (s * 4096 + 4)) = L at hL2 hover ⊢
    unfold sliceBytes
    rw [List.length_take, List.length_drop]
    omega

/-- Witness for the amended C8 on the 7-byte buffer with declared length 9. -/
theorem chunk_data_overrun_truncates_witness :
    chunk_data [0, 0, 0, 9, 2, 10, 20] 0 0 =
      ChunkDataResult.decompress (sliceBytes [0, 0, 0, 9, 2, 10, 20] 5
        (5 + fromBytesBE (sliceBytes [0, 0, 0, 9, 2, 10, 20] 0 4) - 1)) ∧
    (sliceBytes [0, 0, 0, 9, 2, 10, 20] 5
        (5 + fromBytesBE (sliceBytes [0, 0, 0, 9, 2, 10, 20] 0 4) - 1)).length
      < fromBytesBE (sliceBytes [0, 0, 0, 9, 2, 10, 20] 0 4) - 1 :=
  chunk_data_overrun_truncates [0, 0, 0, 9, 2, 10, 20] 0 0 0 9 2
    (by decide) (by decide) (by decide) (by decide) (by decide) (by decide)

/-- Entry recorded per coordinate by the full sweep. -/
inductive ChunkEntry where
  | absent
  | present (tree : List Nat)
  deriving DecidableEq, Repr

/-- Modelled from the spec: the class anvil.Chunk built by Region.get_chunk
is repository code missing from src (only src/anvil/region.py is present).
Following spec section 4.4, single-chunk retrieval is chunk_data composed
with the external decoder D: an absent chunk stays absent, decompressed
bytes become a present decoded tree, and a retrieval error propagates
(modelled as none, aborting the caller). -/
def get_chunk (D : List Nat → List Nat) (data : List Nat)
    (chunk_x chunk_z : Int) : Option ChunkEntry :=
  match chunk_data data chunk_x chunk_z with
  | .absent => some .absent
  | .decompress c => some (.present (D c))
  | .gzipError => none
  | .indexError => none

/-- The coordinate pairs visited by Region.load, outer loop over x and
inner loop over z, each from range(32). -/
def sweepPairs : List (Nat × Nat) :=
  (List.range 32).flatMap (fun x => (List.range 32).map (fun z => (x, z)))

/-- The sequence of entries one call to Region.load appends, in visit
order; none when some coordinate raises during retrieval. -/
def sweep (D : List Nat → List Nat) (data : List Nat) : Option (List ChunkEntry) :=
  sweepPairs.mapM (fun p => get_chunk D data (p.1 : Int) (p.2 : Int))

/-- State of a Region object: name, file bytes, accumulated chunks list. -/
structure Region where
  name : String
  data : List Nat
  chunks : List ChunkEntry
  deriving DecidableEq, Repr

/-- Embeds Region.init given the bytes read from the file: chunks starts
empty. -/
def Region.make (name : String) (data : List Nat) : Region :=
  { name := name, data := data, chunks := [] }

/-- Embeds Region.load: appends the swept entries to the chunks list,
never clearing it; name and data are untouched. -/
def load (D : List Nat → List Nat) (r : Region) : Option Region :=
  (sweep D r.data).map (fun cs => { r with chunks := r.chunks ++ cs })

/-- n successive calls of Region.load on the same object. -/
def loadN (D : List Nat → List Nat) : Nat → Region → Option Region
  | 0, r => some r
  | n + 1, r => (load D r).bind (loadN D n)

lemma mapM_eq_map_of_some {α β : Type} (g : α → Option β) (f : α → β)
    (l : List α) (h : ∀ a ∈ l, g a = some (f a)) :
    l.mapM g = some (l.map f) := by
  induction l with
  | nil => rfl
  | cons a t ih =>
    rw [List.mapM_cons, h a (List.mem_cons_self a t),
      ih (fun b hb => h b (List.mem_cons_of_mem a hb))]
    rfl

lemma mapM_some_length {α β : Type} (g : α → Option β) (l : List α)
    (l2 : List β) (h : l.mapM g = some l2) : l2.length = l.length := by
  induction l generalizing l2 with
  | nil =>
    simp only [List.mapM_nil] at h
    cases h
    rfl
  | cons a t ih =>
    rw [List.mapM_cons] at h
    cases hga : g a with
    | none => rw [hga] at h; simp at h
    | some b =>
      rw [hga] at h
      cases ht : t.mapM g with
      | none => rw [ht] at h; simp at h
      | some bs =>
        rw [ht] at h
        simp only [Option.bind_eq_bind, Option.some_bind, Option.pure_def,
          Option.some.injEq] at h
        cases h
        simp [ih bs ht]

set_option maxRecDepth 100000

lemma sweepPairs_eq :
    sweepPairs = (List.range 1024).map (fun i => (i / 32, i % 32)) := by
  decide

lemma sweepPairs_length : sweepPairs.length = 1024 := by
  rw [sweepPairs_eq]
  simp

lemma sweep_eq_map (D : List Nat → List Nat) (data : List Nat)
    (f : Nat → Nat → ChunkEntry)
    (h : ∀ x z : Nat, x < 32 → z < 32 →
      get_chunk D data (x : Int) (z : Int) = some (f x z)) :
    sweep D data = some ((List.range 1024).map (fun i => f (i / 32) (i % 32))) := by
  unfold sweep
  have hmem : ∀ p ∈ sweepPairs, p.1 < 32 ∧ p.2 < 32 := by
    intro p hp
    rw [sweepPairs_eq] at hp
    obtain ⟨i, hi, rfl⟩ := List.mem_map.mp hp
    have hi2 := List.mem_range.mp hi
    constructor <;> omega
  rw [mapM_eq_map_of_some _ (fun p => f p.1 p.2) sweepPairs
    (fun p hp => h p.1 p.2 (hmem p hp).1 (hmem p hp).2)]
  rw [sweepPairs_eq, List.map_map]
  rfl

lemma countP_ne_range (n k : Nat) (hk : k < n) :
    (List.range n).countP (fun i => decide ¬(i = k)) = n - 1 := by
  induction n with
  | zero => exact absurd hk (by omega)
  | succ m ih =>
    rw [List.range_succ, List.countP_append]
    by_cases hkm : k = m
    · subst hkm
      have hall : (List.range k).countP (fun i => decide ¬(i = k)) =
          (List.range k).length :=
        List.countP_eq_length.mpr (fun a ha => by
          have := List.mem_range.mp ha
          simp
          omega)
      rw [hall]
      simp
    · have hsing : ([m] : List Nat).countP (fun i => decide ¬(i = k)) = 1 := by
        simp [List.countP_cons]
        omega
      rw [ih (by omega), hsing]
      omega

/-- C9: when every coordinate of the sweep succeeds, Region.load produces
exactly 1024 ordered entries, outer loop over x and inner loop over z, with
absent chunks recorded explicitly; a region with exactly one generated
chunk yields one present entry at that position and 1023 absent entries.
Reason: spec-modelled for the anvil.Chunk wrapper, see get_chunk. -/
theorem region_sweep_complete (D : List Nat → List Nat) (data : List Nat)
    (f : Nat → Nat → ChunkEntry)
    (h : ∀ x z : Nat, x < 32 → z < 32 →
      get_chunk D data (x : Int) (z : Int) = some (f x z)) :
    ∃ l, sweep D data = some l ∧ l.length = 1024 ∧
      (∀ x z : Nat, x < 32 → z < 32 → l.get? (x * 32 + z) = some (f x z)) ∧
      (∀ (a b : Nat) (tree : List Nat), a < 32 → b < 32 →
        (∀ x z : Nat, x < 32 → z < 32 → ¬(x = a ∧ z = b) →
          f x z = ChunkEntry.absent) →
        f a b = ChunkEntry.present tree →
        l.count ChunkEntry.absent = 1023 ∧
        l.get? (a * 32 + b) = some (ChunkEntry.present tree)) := by
  refine ⟨(List.range 1024).map (fun i => f (i / 32) (i % 32)),
    sweep_eq_map D data f h, by simp, ?_, ?_⟩
  · intro x z hx hz
    have hk : x * 32 + z < 1024 := by omega
    have h1 : (x * 32 + z) / 32 = x := by omega
    have h2 : (x * 32 + z) % 32 = z := by omega
    rw [List.get?_eq_getElem?, List.getElem?_map, List.getElem?_range hk]
    simp [h1, h2]
  · intro a b tree ha hb hone hpres
    have hk : a * 32 + b < 1024 := by omega
    have h1 : (a * 32 + b) / 32 = a := by omega
    have h2 : (a * 32 + b) % 32 = b := by omega
    constructor
    · rw [List.count_eq_countP, List.countP_map]
      have hcong : ∀ i ∈ List.range 1024,
          ((fun e => e == ChunkEntry.absent) ∘ fun i => f (i / 32) (i % 32)) i = true ↔
          (fun i => decide ¬(i = a * 32 + b)) i = true := by
        intro i hi
        have hi2 := List.mem_range.mp hi
        simp only [Function.comp, beq_iff_eq, decide_eq_true_eq]
        constructor
        · intro habs hik
          subst hik
          rw [h1, h2, hpres] at habs
          cases habs
        · intro hik
          apply hone _ _ (by omega) (by omega)
          rintro ⟨hxa, hzb⟩
          exact hik (by omega)
      rw [List.countP_congr hcong, countP_ne_range 1024 (a * 32 + b) hk]
    · rw [List.get?_eq_getElem?, List.getElem?_map, List.getElem?_range hk]
      simp [h1, h2, hpres]

/-- Region buffer with exactly one generated chunk, at local coordinates
(0, 0): its header entry points at sector 2 with one sector, and the record
there declares length 3, tag 2, payload bytes [10, 20]. -/
def oneChunkData : List Nat :=
  ([0, 0, 2, 1] ++ List.replicate 8188 0) ++ [0, 0, 0, 3, 2, 10, 20]

lemma oneChunkData_front_length :
    ([0, 0, 2, 1] ++ List.replicate 8188 (0 : Nat)).length = 8192 := by
  rw [List.length_append, List.length_replicate]
  rfl

lemma oneChunkData_length : oneChunkData.length = 8199 := by
  unfold oneChunkData
  rw [List.length_append, oneChunkData_front_length]
  rfl

lemma oneChunkData_getD_mid (i : Nat) (h4 : 4 ≤ i) (h8 : i < 8192) :
    oneChunkData.getD i 0 = 0 := by
  unfold oneChunkData
  rw [List.getD_eq_getD_get?, List.get?_eq_getElem?,
    List.getElem?_append_left (by rw [oneChunkData_front_length]; omega),
    List.getElem?_append_right (by simp; omega),
    List.getElem?_replicate]
  rw [if_pos (by simp; omega)]
  rfl

lemma header_offset_toNat_nat (x z : Nat) (hx : x < 32) (hz : z < 32) :
    (header_offset (x : Int) (z : Int)).toNat = 4 * (x + z * 32) := by
  unfold header_offset
  omega

lemma chunk_data_of_loc_zero (data : List Nat) (x z : Int)
    (hloc : chunk_location data x z = some (0, 0)) :
    chunk_data data x z = ChunkDataResult.absent := by
  unfold chunk_data
  rw [hloc]
  simp

lemma oneChunkData_loc_other (x z : Nat) (hx : x < 32) (hz : z < 32)
    (hne : ¬(x = 0 ∧ z = 0)) :
    chunk_location oneChunkData (x : Int) (z : Int) = some (0, 0) := by
  have hb := header_offset_toNat_nat x z hx hz
  have h1 : 1 ≤ x + z * 32 := by omega
  rw [chunk_location_spec _ _ _ (by rw [oneChunkData_length]; omega), hb]
  rw [oneChunkData_getD_mid _ (by omega) (by omega),
    oneChunkData_getD_mid _ (by omega) (by omega),
    oneChunkData_getD_mid _ (by omega) (by omega),
    oneChunkData_getD_mid _ (by omega) (by omega)]

lemma oneChunkData_loc00 : chunk_location oneChunkData 0 0 = some (2, 1) := by
  decide

lemma oneChunkData_drop8192 : oneChunkData.drop 8192 = [0, 0, 0, 3, 2, 10, 20] := by
  unfold oneChunkData
  rw [show (8192 : Nat) = ([0, 0, 2, 1] ++ List.replicate 8188 (0 : Nat)).length
    from oneChunkData_front_length.symm]
  exact List.drop_left _ _

lemma oneChunkData_chunk00 :
    chunk_data oneChunkData 0 0 = ChunkDataResult.decompress [10, 20] := by
  have htag : oneChunkData.get? (2 * 4096 + 4) = some 2 := by
    rw [List.get?_eq_getElem?]
    unfold oneChunkData
    rw [List.getElem?_append_right (by rw [oneChunkData_front_length]; omega),
      oneChunkData_front_length]
    rfl
  rw [chunk_data_nonzero oneChunkData 0 0 2 1 2 oneChunkData_loc00 (by decide) htag,
    if_neg (by decide)]
  have hlen4 : sliceBytes oneChunkData (2 * 4096) (2 * 4096 + 4) = [0, 0, 0, 3] := by
    unfold sliceBytes
    rw [show (2 * 4096 : Nat) = 8192 from rfl, oneChunkData_drop8192]
    rfl
  have hpay : sliceBytes oneChunkData (2 * 4096 + 5)
      (2 * 4096 + 5 + fromBytesBE [0, 0, 0, 3] - 1) = [10, 20] := by
    unfold sliceBytes
    have h2 := List.drop_drop 5 8192 oneChunkData
    rw [oneChunkData_drop8192] at h2
    rw [show (2 * 4096 + 5 : Nat) = 8192 + 5 from rfl, ← h2]
    rfl
  rw [hlen4, hpay]

/-- Witness for C9: sweeping the one-chunk region yields 1024 entries,
a present entry for (0, 0) and 1023 absent ones. -/
theorem region_sweep_complete_witness :
    ∃ l, sweep (fun c => c) oneChunkData = some l ∧ l.length = 1024 ∧
      (∀ x z : Nat, x < 32 → z < 32 → l.get? (x * 32 + z) =
        some (if x = 0 ∧ z = 0 then ChunkEntry.present [10, 20] else ChunkEntry.absent)) ∧
      l.count ChunkEntry.absent = 1023 ∧
      l.get? 0 = some (ChunkEntry.present [10, 20]) := by
  have hget : ∀ x z : Nat, x < 32 → z < 32 →
      get_chunk (fun c => c) oneChunkData (x : Int) (z : Int) =
      some (if x = 0 ∧ z = 0 then ChunkEntry.present [10, 20] else ChunkEntry.absent) := by
    intro x z hx hz
    by_cases h00 : x = 0 ∧ z = 0
    · obtain ⟨rfl, rfl⟩ := h00
      unfold get_chunk
      rw [show ((0 : Nat) : Int) = (0 : Int) from rfl, oneChunkData_chunk00]
      simp
    · unfold get_chunk
      rw [chunk_data_of_loc_zero _ _ _ (oneChunkData_loc_other x z hx hz h00)]
      simp [h00]
  obtain ⟨l, h1, h2, h3, h4⟩ := region_sweep_complete (fun c => c) oneChunkData _ hget
  have h5 := h4 0 0 [10, 20] (by omega) (by omega)
    (fun x z hx hz hne => by simp [if_neg hne])
    (by simp)
  refine ⟨l, h1, h2, h3, h5.1, ?_⟩
  simpa using h5.2

lemma sweep_some_length (D : List Nat → List Nat) (data : List Nat)
    (cs : List ChunkEntry) (h : sweep D data = some cs) : cs.length = 1024 := by
  unfold sweep at h
  have h2 := mapM_some_length _ _ _ h
  rw [sweepPairs_length] at h2
  exact h2

lemma load_some_elim (D : List Nat → List Nat) (r r2 : Region)
    (h : load D r = some r2) :
    r2.name = r.name ∧ r2.data = r.data ∧
    r2.chunks.length = r.chunks.length + 1024 := by
  unfold load at h
  cases hs : sweep D r.data with
  | none => rw [hs] at h; simp at h
  | some cs =>
    rw [hs] at h
    have h3 : { r with chunks := r.chunks ++ cs } = r2 := by simpa using h
    subst h3
    refine ⟨rfl, rfl, ?_⟩
    simp [sweep_some_length D r.data cs hs]

lemma loadN_some_elim (D : List Nat → List Nat) (n : Nat) (r r2 : Region)
    (h : loadN D n r = some r2) :
    r2.name = r.name ∧ r2.data = r.data ∧
    r2.chunks.length = r.chunks.length + 1024 * n := by
  induction n generalizing r with
  | zero =>
    unfold loadN at h
    cases h
    simp
  | succ m ih =>
    unfold loadN at h
    cases hl : load D r with
    | none => rw [hl] at h; simp at h
    | some r1 =>
      rw [hl] at h
      simp only [Option.some_bind] at h
      have h1 := load_some_elim D r r1 hl
      have h2 := ih r1 h
      exact ⟨h2.1.trans h1.1, h2.2.1.trans h1.2.1, by omega⟩

/-- C10: every successful call of load appends exactly 1024 entries to the
chunks list without clearing it and leaves name and data unchanged, so load
is not idempotent; after n successful calls starting from a fresh Region
the chunks list holds 1024 * n entries. chunk_location and chunk_data are
embedded as pure functions of the region bytes, mutating nothing. -/
theorem load_frame_effects (D : List Nat → List Nat) :
    (∀ r r2 : Region, load D r = some r2 →
      r2.name = r.name ∧ r2.data = r.data ∧
      r2.chunks.length = r.chunks.length + 1024 ∧ load D r2 ≠ some r2) ∧
    (∀ (n : Nat) (r r2 : Region), loadN D n r = some r2 →
      r2.name = r.name ∧ r2.data = r.data ∧
      r2.chunks.length = r.chunks.length + 1024 * n) ∧
    (∀ (nm : String) (bytes : List Nat) (n : Nat) (r2 : Region),
      loadN D n (Region.make nm bytes) = some r2 →
      r2.chunks.length = 1024 * n) := by
  refine ⟨?_, ?_, ?_⟩
  · intro r r2 h
    have h1 := load_some_elim D r r2 h
    refine ⟨h1.1, h1.2.1, h1.2.2, ?_⟩
    intro hcontra
    have h2 := load_some_elim D r2 r2 hcontra
    omega
  · intro n r r2 h
    exact loadN_some_elim D n r r2 h
  · intro nm bytes n r2 h
    have h1 := loadN_some_elim D n _ r2 h
    simpa [Region.make] using h1.2.2

lemma getD_replicate8192_zero (i : Nat) :
    (List.replicate 8192 (0 : Nat)).getD i 0 = 0 := by
  rw [List.getD_eq_getD_get?, List.get?_eq_getElem?, List.getElem?_replicate]
  split <;> rfl

lemma chunk_data_zero_buffer (x z : Int) :
    chunk_data (List.replicate 8192 0) x z = ChunkDataResult.absent := by
  apply chunk_data_of_loc_zero
  rw [chunk_location_spec _ _ _ (by rw [List.length_replicate])]
  rw [getD_replicate8192_zero, getD_replicate8192_zero,
    getD_replicate8192_zero, getD_replicate8192_zero]

lemma sweep_zero_buffer :
    sweep (fun c => c) (List.replicate 8192 0) =
      some (List.replicate 1024 ChunkEntry.absent) := by
  have h := sweep_eq_map (fun c => c) (List.replicate 8192 0)
    (fun x z => ChunkEntry.absent)
    (fun x z hx hz => by unfold get_chunk; rw [chunk_data_zero_buffer])
  rw [h]
  simp [List.map_const']

lemma load_zero_buffer :
    load (fun c => c) (Region.make "r" (List.replicate 8192 0)) =
      some (Region.mk "r" (List.replicate 8192 0)
        (List.replicate 1024 ChunkEntry.absent)) := by
  unfold load Region.make
  rw [sweep_zero_buffer]
  rfl

/-- Witness for C10 on an all-zero region buffer: one load appends 1024
entries to the fresh Region and is not idempotent. -/
theorem load_frame_effects_witness :
    load (fun c => c) (Region.make "r" (List.replicate 8192 0)) =
      some (Region.mk "r" (List.replicate 8192 0)
        (List.replicate 1024 ChunkEntry.absent)) ∧
    (Region.mk "r" (List.replicate 8192 0)
        (List.replicate 1024 ChunkEntry.absent)).chunks.length =
      (Region.make "r" (List.replicate 8192 0)).chunks.length + 1024 ∧
    load (fun c => c) (Region.mk "r" (List.replicate 8192 0)
        (List.replicate 1024 ChunkEntry.absent)) ≠
      some (Region.mk "r" (List.replicate 8192 0)
        (List.replicate 1024 ChunkEntry.absent)) ∧
    (Region.mk "r" (List.replicate 8192 0)
        (List.replicate 1024 ChunkEntry.absent)).chunks.length = 1024 * 1 := by
  have hmain := (load_frame_effects (fun c => c)).1 _ _ load_zero_buffer
  have hN : loadN (fun c => c) 1 (Region.make "r" (List.replicate 8192 0)) =
      some (Region.mk "r" (List.replicate 8192 0)
        (List.replicate 1024 ChunkEntry.absent)) := by
    unfold loadN
    rw [load_zero_buffer]
    rfl
  have hlast := (load_frame_effects (fun c => c)).2.2 "r" (List.replicate 8192 0) 1 _ hN
  exact ⟨load_zero_buffer, hmain.2.2.1, hmain.2.2.2, hlast⟩
